import Mathlib

/-!
Verification of the two core components of the `newslackbot` webhook adapter:

* `convert_markdown_to_slack` — the markdown-dialect translator
  (`src/endpoints/new_slack_bot.py`, lines 16-107), a fixed-order pipeline of
  regex rewrites with placeholder shielding for code, headings and bold text;
* `get_conversation_key_and_reply_ts` — the conversation key resolver
  (`src/endpoints/new_slack_bot.py`, lines 115-159).

Both are embedded shallowly: strings are `List Char` wrapped in `String`, and
each `re.sub` pass of the Python source is rendered as an explicit fuel-driven
left-to-right scanner with the same matching semantics (leftmost match,
greedy / lazy quantifiers as in the original pattern, one-character advance on
a failed attempt, `MULTILINE` anchoring tracked by an at-line-start flag).
All definitions are executable so concrete runs can be settled by `decide`.
-/

set_option maxHeartbeats 1000000

/-- The backtick character (U+0060), kept as a named constant. -/
def btChar : Char := Char.ofNat 96

/-- Three backticks: the fenced code block delimiter. -/
def ticks3 : List Char := [btChar, btChar, btChar]

/-- Characters on which Python `str.splitlines` splits. -/
def isLineSep (c : Char) : Bool :=
  c == '\n' || c == '\r' || c == '\x0b' || c == '\x0c' ||
  c == '\x1c' || c == '\x1d' || c == '\x1e' || c == '\x85' ||
  c == ' ' || c == ' '

/-- Characters matched by Python's `\s` on `str` (Unicode whitespace). -/
def isPySpace (c : Char) : Bool :=
  c == ' ' || c == '\t' || c == '\n' || c == '\r' || c == '\x0b' || c == '\x0c' ||
  c == '\x1c' || c == '\x1d' || c == '\x1e' || c == '\x1f' || c == '\x85' || c == '\xa0' ||
  c == ' ' || (decide (' ' ≤ c) && decide (c ≤ ' ')) ||
  c == ' ' || c == ' ' || c == ' ' || c == ' ' || c == '　'

/-- The character class `[ \t]` used by the line-start regexes. -/
def spTab (c : Char) : Bool := c == ' ' || c == '\t'

/-- Last character of a list, if any. -/
def lastChar? : List Char → Option Char
  | [] => none
  | [c] => some c
  | _ :: c :: cs => lastChar? (c :: cs)

/-- `startsWith pat l` is true when `pat` is an initial segment of `l`. -/
def startsWith : List Char → List Char → Bool
  | [], _ => true
  | _ :: _, [] => false
  | p :: ps, c :: cs => p == c && startsWith ps cs

/-- `hasSub pat l` is true when `pat` occurs as a contiguous segment of `l`. -/
def hasSub (pat : List Char) : List Char → Bool
  | [] => startsWith pat []
  | c :: cs => startsWith pat (c :: cs) || hasSub pat cs

/-- Python `str.strip()`: remove leading and trailing whitespace. -/
def pyStrip (l : List Char) : List Char :=
  ((l.dropWhile isPySpace).reverse.dropWhile isPySpace).reverse

/-- Python `str.splitlines()`: split on line separators, `\r\n` counting as
one separator, with no trailing empty line for a trailing separator. -/
def pySplitlines : List Char → List (List Char)
  | [] => []
  | '\r' :: '\n' :: rest => [] :: pySplitlines rest
  | '\r' :: c :: cs => [] :: pySplitlines (c :: cs)
  | ['\r'] => [[]]
  | c :: cs =>
    if isLineSep c then [] :: pySplitlines cs
    else match pySplitlines cs with
      | [] => [[c]]
      | ln :: lns => (c :: ln) :: lns

/-- Python `"\n".join`. -/
def joinNL : List (List Char) → List Char
  | [] => []
  | [l] => l
  | l :: l2 :: ls => l ++ '\n' :: joinNL (l2 :: ls)

def cbBase : List Char := "CODEBLOCK".data
def icBase : List Char := "INLINECODE".data
def hdBase : List Char := "HEADING".data
def boldBase : List Char := "BOLD".data

/-- Placeholder token `%%<base>_<i>%%` as built by the Python f-strings. -/
def phName (base : List Char) (i : Nat) : List Char :=
  '%' :: '%' :: base ++ '_' :: (Nat.repr i).data ++ ['%', '%']

/-- Split at the first occurrence of three backticks: content before it and
the remainder after it (the lazy `[\s\S]*?` closing search). -/
def findClose3 : List Char → Option (List Char × List Char)
  | [] => none
  | c :: cs =>
    if startsWith ticks3 (c :: cs) then some ([], cs.drop 2)
    else match findClose3 cs with
      | none => none
      | some p => some (c :: p.1, p.2)

/-- Stage 0: `re.sub(r"```([\s\S]*?)```", protect_codeblock, text)`.
Returns the rewritten text and the placeholder map (in insertion order). -/
def subCodeF : Nat → List Char → Nat → List Char × List (List Char × List Char)
  | 0, l, _ => (l, [])
  | _ + 1, [], _ => ([], [])
  | fuel + 1, c :: cs, idx =>
    if startsWith ticks3 (c :: cs) then
      match findClose3 (cs.drop 2) with
      | some p =>
        let r := subCodeF fuel p.2 (idx + 1)
        (phName cbBase idx ++ r.1, (phName cbBase idx, ticks3 ++ p.1 ++ ticks3) :: r.2)
      | none =>
        let r := subCodeF fuel cs idx
        (c :: r.1, r.2)
    else
      let r := subCodeF fuel cs idx
      (c :: r.1, r.2)

/-- Split at the first backtick: content before it and the remainder after. -/
def findTick : List Char → Option (List Char × List Char)
  | [] => none
  | c :: cs =>
    if c == btChar then some ([], cs)
    else match findTick cs with
      | none => none
      | some p => some (c :: p.1, p.2)

/-- Stage 1: `re.sub(r"`([^`]+)`", protect_inlinecode, text)`. -/
def subInlineF : Nat → List Char → Nat → List Char × List (List Char × List Char)
  | 0, l, _ => (l, [])
  | _ + 1, [], _ => ([], [])
  | fuel + 1, c :: cs, idx =>
    if c == btChar then
      match findTick cs with
      | some p =>
        if p.1 = [] then
          let r := subInlineF fuel cs idx
          (c :: r.1, r.2)
        else
          let r := subInlineF fuel p.2 (idx + 1)
          (phName icBase idx ++ r.1, (phName icBase idx, btChar :: p.1 ++ [btChar]) :: r.2)
      | none =>
        let r := subInlineF fuel cs idx
        (c :: r.1, r.2)
    else
      let r := subInlineF fuel cs idx
      (c :: r.1, r.2)

/-- Split at the first `]`. -/
def findRB : List Char → Option (List Char × List Char)
  | [] => none
  | c :: cs =>
    if c == ']' then some ([], cs)
    else match findRB cs with
      | none => none
      | some p => some (c :: p.1, p.2)

/-- Split at the first `)`. -/
def findRP : List Char → Option (List Char × List Char)
  | [] => none
  | c :: cs =>
    if c == ')' then some ([], cs)
    else match findRP cs with
      | none => none
      | some p => some (c :: p.1, p.2)

/-- Attempt `([^\]]+)\]\((http[^\)]+)\)` on the text right after a `[`;
returns `(label, url, rest)` on success. -/
def tryLink (l : List Char) : Option (List Char × List Char × List Char) :=
  match findRB l with
  | none => none
  | some p =>
    if p.1 = [] then none
    else match p.2 with
      | '(' :: 'h' :: 't' :: 't' :: 'p' :: r2 =>
        match findRP r2 with
        | none => none
        | some q =>
          if q.1 = [] then none
          else some (p.1, 'h' :: 't' :: 't' :: 'p' :: q.1, q.2)
      | _ => none

/-- Stage 2: `re.sub(r"\[([^\]]+)\]\((http[^\)]+)\)", r"<\2|\1>", text)`. -/
def subLinkF : Nat → List Char → List Char
  | 0, l => l
  | _ + 1, [] => []
  | fuel + 1, c :: cs =>
    if c == '[' then
      match tryLink cs with
      | some t => '<' :: t.2.1 ++ '|' :: t.1 ++ '>' :: subLinkF fuel t.2.2
      | none => c :: subLinkF fuel cs
    else c :: subLinkF fuel cs

/-- Attempt `^[ \t]*(#{1,6})\s+(.*)$` at a line start; returns the raw
heading text (group 2) and the remainder (starting at the terminating
newline, if any). The greedy `\s+` may cross newlines, as in Python. -/
def tryHeading (l : List Char) : Option (List Char × List Char) :=
  let l1 := l.dropWhile spTab
  let hashes := l1.takeWhile (fun c => c == '#')
  if 1 ≤ hashes.length ∧ hashes.length ≤ 6 then
    let r1 := l1.dropWhile (fun c => c == '#')
    let ws := r1.takeWhile isPySpace
    if ws = [] then none
    else
      let r2 := r1.dropWhile isPySpace
      some (r2.takeWhile (fun c => !(c == '\n')), r2.dropWhile (fun c => !(c == '\n')))
  else none

/-- Stage 3: heading shielding with `re.MULTILINE`; the stored value is the
stripped heading text, the match is replaced by a placeholder. -/
def subHeadF : Nat → List Char → Bool → Nat → List Char × List (List Char × List Char)
  | 0, l, _, _ => (l, [])
  | _ + 1, [], _, _ => ([], [])
  | fuel + 1, c :: cs, atLS, idx =>
    if atLS then
      match tryHeading (c :: cs) with
      | some p =>
        let r := subHeadF fuel p.2 false (idx + 1)
        (phName hdBase idx ++ r.1, (phName hdBase idx, pyStrip p.1) :: r.2)
      | none =>
        let r := subHeadF fuel cs (c == '\n') idx
        (c :: r.1, r.2)
    else
      let r := subHeadF fuel cs (c == '\n') idx
      (c :: r.1, r.2)

/-- Attempt `^[ \t]*\*[　\s]+` at a line start; returns whether the
matched span ends with a newline and the remainder. -/
def tryBullet (l : List Char) : Option (Bool × List Char) :=
  match l.dropWhile spTab with
  | c :: r =>
    if c == '*' then
      let ws := r.takeWhile isPySpace
      if ws = [] then none
      else some (lastChar? ws == some '\n', r.dropWhile isPySpace)
    else none
  | [] => none

/-- Stage 4a: `re.sub(r'^[ \t]*\*[　\s]+', '* ', text, flags=re.MULTILINE)`. -/
def subBulletStarF : Nat → List Char → Bool → List Char
  | 0, l, _ => l
  | _ + 1, [], _ => []
  | fuel + 1, c :: cs, atLS =>
    if atLS then
      match tryBullet (c :: cs) with
      | some p => '*' :: ' ' :: subBulletStarF fuel p.2 p.1
      | none => c :: subBulletStarF fuel cs (c == '\n')
    else c :: subBulletStarF fuel cs (c == '\n')

/-- Attempt `^[ \t]*[・•]\s+` at a line start. -/
def tryDot (l : List Char) : Option (Bool × List Char) :=
  match l.dropWhile spTab with
  | c :: r =>
    if c == '・' || c == '•' then
      let ws := r.takeWhile isPySpace
      if ws = [] then none
      else some (lastChar? ws == some '\n', r.dropWhile isPySpace)
    else none
  | [] => none

/-- Stage 4b: `re.sub(r'^[ \t]*[・•]\s+', '* ', text, flags=re.MULTILINE)`. -/
def subBulletDotF : Nat → List Char → Bool → List Char
  | 0, l, _ => l
  | _ + 1, [], _ => []
  | fuel + 1, c :: cs, atLS =>
    if atLS then
      match tryDot (c :: cs) with
      | some p => '*' :: ' ' :: subBulletDotF fuel p.2 p.1
      | none => c :: subBulletDotF fuel cs (c == '\n')
    else c :: subBulletDotF fuel cs (c == '\n')

/-- Lazy search for `(.+?)dd` (no newline in the content): the shortest
nonempty content followed by a doubled delimiter. -/
def findClose2 (d : Char) : List Char → Option (List Char × List Char)
  | [] => none
  | c :: cs =>
    if c == '\n' then none
    else if startsWith [d, d] cs then some ([c], cs.drop 2)
    else match findClose2 d cs with
      | none => none
      | some p => some (c :: p.1, p.2)

/-- Stage 5: `re.sub(r"\*\*(.+?)\*\*", protect_bold, text)` and the
analogous `__(.+?)__` pass, parametrised by the delimiter character.
The placeholder index continues across the two passes. -/
def subBoldF : Nat → Char → List Char → Nat → List Char × List (List Char × List Char)
  | 0, _, l, _ => (l, [])
  | _ + 1, _, [], _ => ([], [])
  | fuel + 1, d, c :: cs, idx =>
    if startsWith [d, d] (c :: cs) then
      match findClose2 d (cs.drop 1) with
      | some p =>
        let r := subBoldF fuel d p.2 (idx + 1)
        (phName boldBase idx ++ r.1, (phName boldBase idx, p.1) :: r.2)
      | none =>
        let r := subBoldF fuel d cs idx
        (c :: r.1, r.2)
    else
      let r := subBoldF fuel d cs idx
      (c :: r.1, r.2)

/-- Stage 6: `re.sub(r"~~(.+?)~~", r"~\1~", text)`. -/
def subStrikeF : Nat → List Char → List Char
  | 0, l => l
  | _ + 1, [] => []
  | fuel + 1, c :: cs =>
    if startsWith ['~', '~'] (c :: cs) then
      match findClose2 '~' (cs.drop 1) with
      | some p => '~' :: p.1 ++ '~' :: subStrikeF fuel p.2
      | none => c :: subStrikeF fuel cs
    else c :: subStrikeF fuel cs

/-- Lazy search for the closing `*` of `(?<!\*)\*(?!\*)(.+?)(?<!\*)\*(?!\*)`
after the opening `*`: shortest nonempty content (no newline) whose last
character is not `*`, ending at a `*` not followed by another `*`. -/
def findIC : List Char → Option (List Char × List Char)
  | [] => none
  | [_] => none
  | a :: b :: rest =>
    if a == '\n' then none
    else if b == '*' && !(a == '*') && !(rest.head? == some '*') then some ([a], rest)
    else match findIC (b :: rest) with
      | none => none
      | some p => some (a :: p.1, p.2)

/-- One italic substitution pass over a single line, tracking the previous
character for the `(?<!\*)` lookbehind. -/
def italLineF : Nat → Option Char → List Char → List Char
  | 0, _, l => l
  | _ + 1, _, [] => []
  | fuel + 1, prev, c :: cs =>
    if c == '*' && !(prev == some '*') && !(cs.head? == some '*') then
      match findIC cs with
      | some p => '_' :: p.1 ++ '_' :: italLineF fuel (some '*') p.2
      | none => c :: italLineF fuel (some '*') cs
    else c :: italLineF fuel (some c) cs

/-- Attempt `re.match(r'^(\s*\*\s)(.*)$', line)`: the bullet prefix and the
rest of the line. -/
def tryItalPre (l : List Char) : Option (List Char × List Char) :=
  let ws := l.takeWhile isPySpace
  match l.dropWhile isPySpace with
  | c :: d :: rest =>
    if c == '*' && isPySpace d then some (ws ++ [c, d], rest) else none
  | _ => none

/-- Stage 7 per line: preserve a bullet prefix and apply the italic rewrite
to the remainder, otherwise rewrite the whole line. -/
def italLine (l : List Char) : List Char :=
  match tryItalPre l with
  | some p => p.1 ++ italLineF (p.2.length + 1) none p.2
  | none => italLineF (l.length + 1) none l

/-- Stage 7: `text.splitlines()`, per-line italic rewriting, `"\n".join`. -/
def stage7 (l : List Char) : List Char :=
  joinNL ((pySplitlines l).map italLine)

/-- Python `str.replace`: replace all non-overlapping occurrences of `pat`
by `repl`, scanning left to right. -/
def replaceAllF : Nat → List Char → List Char → List Char → List Char
  | 0, _, _, l => l
  | _ + 1, _, _, [] => []
  | fuel + 1, pat, repl, c :: cs =>
    if startsWith pat (c :: cs) then
      repl ++ replaceAllF fuel pat repl ((c :: cs).drop pat.length)
    else c :: replaceAllF fuel pat repl cs

def replaceAll (pat repl l : List Char) : List Char :=
  replaceAllF (l.length + 1) pat repl l

/-- Stages 8-10: restore a placeholder map in insertion order, wrapping each
stored value with `f`. -/
def restoreMap (f : List Char → List Char) (m : List (List Char × List Char))
    (t : List Char) : List Char :=
  m.foldl (fun acc p => replaceAll p.1 (f p.2) acc) t

/-- The `f"*{content}*"` wrapper used when materialising headings and bold. -/
def boldWrap (v : List Char) : List Char := '*' :: v ++ ['*']

/-- Stages 2-7 of the pipeline (link, heading, bullets, bold, strike,
italic), returning the text, the heading map and the bold map. -/
def midStages (l : List Char) : List Char × List (List Char × List Char) × List (List Char × List Char) :=
  let t2 := subLinkF (l.length + 1) l
  let r3 := subHeadF (t2.length + 1) t2 true 0
  let t4 := subBulletStarF (r3.1.length + 1) r3.1 true
  let t4b := subBulletDotF (t4.length + 1) t4 true
  let r5a := subBoldF (t4b.length + 1) '*' t4b 0
  let r5b := subBoldF (r5a.1.length + 1) '_' r5a.1 r5a.2.length
  let t6 := subStrikeF (r5b.1.length + 1) r5b.1
  (stage7 t6, r3.2, r5a.2 ++ r5b.2)

/-- The whole translation pipeline on character lists. -/
def convertList (l : List Char) : List Char :=
  let r0 := subCodeF (l.length + 1) l 0
  let r1 := subInlineF (r0.1.length + 1) r0.1 0
  let m := midStages r1.1
  let t8 := restoreMap boldWrap m.2.1 m.1
  let t9 := restoreMap boldWrap m.2.2 t8
  let t10 := restoreMap (fun v => v) r0.2 t9
  restoreMap (fun v => v) r1.2 t10

/-- `convert_markdown_to_slack` from `src/endpoints/new_slack_bot.py`. -/
def convert_markdown_to_slack (s : String) : String :=
  ⟨convertList s.data⟩

/-- The fields of the Slack event dictionary that the endpoint reads.
Absent dictionary keys are `none` (Python `event.get` returns `None`). -/
structure SlackEvent where
  channel_type : Option String
  channel : Option String
  ts : Option String
  thread_ts : Option String
  type : Option String
  text : Option String
  user : Option String
  bot_id : Option String
  subtype : Option String
deriving DecidableEq

/-- Python truthiness of an optional string: `None` and `""` are falsy. -/
def truthy : Option String → Bool
  | none => false
  | some s => !(s == "")

/-- `get_conversation_key_and_reply_ts` from `src/endpoints/new_slack_bot.py`:
returns `(conversation_key, reply_thread_ts)`. -/
def get_conversation_key_and_reply_ts (e : SlackEvent) : Option String × Option String :=
  if e.channel_type = some "im" ∧ e.type = some "message" then
    (e.channel, none)
  else if e.type = some "app_mention" then
    if truthy e.thread_ts then (e.thread_ts, e.thread_ts)
    else (e.ts, e.ts)
  else (none, none)

/-- The markup glyphs named by the plain-text round-trip claim: asterisk,
underscore, tilde, backtick, square brackets, parentheses, the heading
marker and the alternate bullet glyphs. -/
def isC1Glyph (c : Char) : Bool :=
  c == '*' || c == '_' || c == '~' || c == btChar || c == '[' || c == ']' ||
  c == '(' || c == ')' || c == '#' || c == '・' || c == '•'

/-- Whether three consecutive backticks occur anywhere in the text (the
trigger of the fenced-code shielding stage). -/
def hasTicks3 : List Char → Bool
  | [] => false
  | c :: cs => startsWith ticks3 (c :: cs) || hasTicks3 cs

/-- Whether the doubled delimiter `dd` occurs anywhere in the text (the
trigger of the strong-emphasis shielding passes). -/
def hasDouble (d : Char) : List Char → Bool
  | [] => false
  | c :: cs => startsWith [d, d] (c :: cs) || hasDouble d cs

example : convert_markdown_to_slack "**bold**" = "*bold*" := by decide
example : convert_markdown_to_slack "__bold__" = "*bold*" := by decide
example : convert_markdown_to_slack "# Title" = "*Title*" := by decide
example : convert_markdown_to_slack "~~gone~~" = "~gone~" := by decide
example : convert_markdown_to_slack "[click](http://x.test)" = "<http://x.test|click>" := by decide
example : convert_markdown_to_slack "*em*" = "_em_" := by decide
example : convert_markdown_to_slack "* item with *em* text" = "* item with _em_ text" := by decide

/-! ## Resolver claims -/

/-- C4: for every pair of direct-message event descriptors (`channel_type`
`"im"`, event type `"message"`) in the same channel, the resolver returns the
same key — the channel identifier — for both, and the reply anchor is absent
for both, regardless of the two `message_ts` values. -/
theorem C4_dm_same_key (e1 e2 : SlackEvent)
    (h1 : e1.channel_type = some "im") (h2 : e1.type = some "message")
    (h3 : e2.channel_type = some "im") (h4 : e2.type = some "message")
    (h5 : e1.channel = e2.channel) :
    get_conversation_key_and_reply_ts e1 = (e1.channel, none) ∧
    get_conversation_key_and_reply_ts e2 = (e1.channel, none) := by
  unfold get_conversation_key_and_reply_ts
  rw [if_pos ⟨h1, h2⟩, if_pos ⟨h3, h4⟩, h5]
  exact ⟨rfl, rfl⟩

/-- Witness for C4 at two concrete DM events with different timestamps. -/
theorem C4_witness :
    get_conversation_key_and_reply_ts
      { channel_type := some "im", channel := some "D42", ts := some "1.1",
        thread_ts := none, type := some "message", text := some "hi",
        user := some "U1", bot_id := none, subtype := none } = (some "D42", none) ∧
    get_conversation_key_and_reply_ts
      { channel_type := some "im", channel := some "D42", ts := some "2.2",
        thread_ts := none, type := some "message", text := some "later",
        user := some "U1", bot_id := none, subtype := none } = (some "D42", none) :=
  C4_dm_same_key _ _ rfl rfl rfl rfl rfl

/-- C3 counterexample: a mention descriptor whose `thread_ts` is present but
empty. The claim says key and anchor are that `thread_ts` value, but the code
tests Python truthiness (`if thread_ts:`), treats the empty string as absent,
and keys on the message's own `ts` instead. -/
theorem C3_counterexample :
    get_conversation_key_and_reply_ts
      { channel_type := some "channel", channel := some "C9", ts := some "111.222",
        thread_ts := some "", type := some "app_mention", text := some "hi",
        user := some "U1", bot_id := none, subtype := none }
      = (some "111.222", some "111.222") ∧
    get_conversation_key_and_reply_ts
      { channel_type := some "channel", channel := some "C9", ts := some "111.222",
        thread_ts := some "", type := some "app_mention", text := some "hi",
        user := some "U1", bot_id := none, subtype := none }
      ≠ (some "", some "") := by decide

/-- C3 (amended): for every mention descriptor whose `thread_ts` is present
with a nonempty value `t`, the resolver returns key `t` and reply anchor `t`,
regardless of the event's own `message_ts`. -/
theorem C3_threaded_mention (e : SlackEvent) (t : String)
    (h1 : e.type = some "app_mention") (h2 : e.thread_ts = some t) (h3 : t ≠ "") :
    get_conversation_key_and_reply_ts e = (some t, some t) := by
  have hne : ¬(e.channel_type = some "im" ∧ e.type = some "message") := by
    rintro ⟨-, hmsg⟩
    rw [h1] at hmsg
    exact absurd hmsg (by decide)
  unfold get_conversation_key_and_reply_ts
  rw [if_neg hne, if_pos h1, h2]
  simp [truthy, h3]

/-- Witness for C3 (amended) at a concrete threaded mention. -/
theorem C3_witness :
    get_conversation_key_and_reply_ts
      { channel_type := some "channel", channel := some "C1", ts := some "2.0",
        thread_ts := some "1.0", type := some "app_mention", text := some "hi",
        user := some "U1", bot_id := none, subtype := none } = (some "1.0", some "1.0") :=
  C3_threaded_mention _ "1.0" rfl rfl (by decide)

/-- C5: for every mention descriptor with no `thread_ts` and message
timestamp `m`, the resolver returns key `m` and reply anchor `m`. -/
theorem C5_new_mention (e : SlackEvent) (m : String)
    (h1 : e.type = some "app_mention") (h2 : e.thread_ts = none) (h3 : e.ts = some m) :
    get_conversation_key_and_reply_ts e = (some m, some m) := by
  have hne : ¬(e.channel_type = some "im" ∧ e.type = some "message") := by
    rintro ⟨-, hmsg⟩
    rw [h1] at hmsg
    exact absurd hmsg (by decide)
  unfold get_conversation_key_and_reply_ts
  rw [if_neg hne, if_pos h1, h2, h3]
  rfl

/-- Witness for C5 at a concrete top-level mention. -/
theorem C5_witness :
    get_conversation_key_and_reply_ts
      { channel_type := some "channel", channel := some "C1", ts := some "3.14",
        thread_ts := none, type := some "app_mention", text := some "hi",
        user := some "U1", bot_id := none, subtype := none } = (some "3.14", some "3.14") :=
  C5_new_mention _ "3.14" rfl rfl rfl

/-- C6: every event descriptor matching none of the three recognized cases
(not a direct message, not a mention) resolves to `(none, none)`; the embedded
resolver is a total function, so no exception and no side effect occur. -/
theorem C6_unrecognized (e : SlackEvent)
    (h1 : ¬(e.channel_type = some "im" ∧ e.type = some "message"))
    (h2 : e.type ≠ some "app_mention") :
    get_conversation_key_and_reply_ts e = (none, none) := by
  unfold get_conversation_key_and_reply_ts
  rw [if_neg h1, if_neg h2]

/-- Witness for C6 at a plain channel message without a mention. -/
theorem C6_witness :
    get_conversation_key_and_reply_ts
      { channel_type := some "channel", channel := some "C1", ts := some "5.0",
        thread_ts := none, type := some "message", text := some "chatter",
        user := some "U2", bot_id := none, subtype := none } = (none, none) :=
  C6_unrecognized _ (by rintro ⟨h, -⟩; exact absurd h (by decide)) (by decide)

/-- C9: whenever the resolver returns a non-absent reply anchor, the
conversation key is also non-absent and equals the anchor. -/
theorem C9_anchor_matches_key (e : SlackEvent)
    (h : (get_conversation_key_and_reply_ts e).2 ≠ none) :
    (get_conversation_key_and_reply_ts e).1 = (get_conversation_key_and_reply_ts e).2 ∧
    (get_conversation_key_and_reply_ts e).1 ≠ none := by
  by_cases hc : e.channel_type = some "im" ∧ e.type = some "message"
  · unfold get_conversation_key_and_reply_ts at h
    rw [if_pos hc] at h
    exact absurd rfl h
  · by_cases hm : e.type = some "app_mention"
    · by_cases ht : truthy e.thread_ts = true
      · unfold get_conversation_key_and_reply_ts
        rw [if_neg hc, if_pos hm, if_pos ht]
        refine ⟨rfl, ?_⟩
        cases hts : e.thread_ts with
        | none => rw [hts] at ht; exact absurd ht (by decide)
        | some t => simp [hts]
      · unfold get_conversation_key_and_reply_ts at h ⊢
        rw [if_neg hc, if_pos hm, if_neg ht] at h ⊢
        exact ⟨rfl, h⟩
    · unfold get_conversation_key_and_reply_ts at h
      rw [if_neg hc, if_neg hm] at h
      exact absurd rfl h

/-- Witness for C9 at a concrete threaded mention. -/
theorem C9_witness :
    (get_conversation_key_and_reply_ts
      { channel_type := some "channel", channel := some "C1", ts := some "2.0",
        thread_ts := some "1.0", type := some "app_mention", text := some "q",
        user := some "U1", bot_id := none, subtype := none }).1
    = (get_conversation_key_and_reply_ts
      { channel_type := some "channel", channel := some "C1", ts := some "2.0",
        thread_ts := some "1.0", type := some "app_mention", text := some "q",
        user := some "U1", bot_id := none, subtype := none }).2 ∧
    (get_conversation_key_and_reply_ts
      { channel_type := some "channel", channel := some "C1", ts := some "2.0",
        thread_ts := some "1.0", type := some "app_mention", text := some "q",
        user := some "U1", bot_id := none, subtype := none }).1 ≠ none :=
  C9_anchor_matches_key _ (by decide)

/-- C10: the resolver's result depends only on the `channel_type`, `channel`,
`ts`, `thread_ts` and `type` fields of the event descriptor; two descriptors
agreeing on those five fields resolve identically however much the remaining
fields (text, user, bot id, subtype) differ. -/
theorem C10_depends_only_on_routing_fields (e1 e2 : SlackEvent)
    (h1 : e1.channel_type = e2.channel_type) (h2 : e1.channel = e2.channel)
    (h3 : e1.ts = e2.ts) (h4 : e1.thread_ts = e2.thread_ts) (h5 : e1.type = e2.type) :
    get_conversation_key_and_reply_ts e1 = get_conversation_key_and_reply_ts e2 := by
  unfold get_conversation_key_and_reply_ts
  rw [h1, h2, h3, h4, h5]

/-- Witness for C10: two mention events agreeing on the five routing fields
but with different text and user resolve identically. -/
theorem C10_witness :
    get_conversation_key_and_reply_ts
      { channel_type := some "channel", channel := some "C1", ts := some "2.0",
        thread_ts := some "1.0", type := some "app_mention", text := some "first text",
        user := some "U1", bot_id := none, subtype := none }
    = get_conversation_key_and_reply_ts
      { channel_type := some "channel", channel := some "C1", ts := some "2.0",
        thread_ts := some "1.0", type := some "app_mention", text := some "другой",
        user := some "U2", bot_id := some "B7", subtype := some "me_message" } :=
  C10_depends_only_on_routing_fields _ _ rfl rfl rfl rfl rfl

/-! ## Basic helper lemmas -/

theorem memDropWhile {p : Char → Bool} : ∀ {l : List Char} {a : Char},
    a ∈ l.dropWhile p → a ∈ l := by
  intro l
  induction l with
  | nil => intro a h; simp at h
  | cons c cs ih =>
    intro a h
    rw [List.dropWhile_cons] at h
    split at h
    · exact List.mem_cons_of_mem _ (ih h)
    · exact h

theorem startsWith_refl : ∀ l : List Char, startsWith l l = true := by
  intro l
  induction l with
  | nil => rfl
  | cons c cs ih => simp [startsWith, ih]

theorem replaceAllF_nilText (f : Nat) (pat repl : List Char) :
    replaceAllF f pat repl [] = [] := by
  cases f <;> rfl

theorem replaceAll_self (pat repl : List Char) (h : pat ≠ []) :
    replaceAll pat repl pat = repl := by
  cases pat with
  | nil => exact absurd rfl h
  | cons c cs =>
    have hl : (c :: cs).length + 1 = cs.length + 1 + 1 := by simp
    rw [replaceAll, hl]
    simp only [replaceAllF]
    rw [if_pos (startsWith_refl _)]
    simp [List.drop_length, replaceAllF_nilText]

theorem phName_ne_nil (b : List Char) (i : Nat) : phName b i ≠ [] := by
  simp [phName]

/-! ## Identity of the shielding stages on trigger-free text -/

theorem hasTicks3_cons {c : Char} {cs : List Char} (h : hasTicks3 (c :: cs) = false) :
    startsWith ticks3 (c :: cs) = false ∧ hasTicks3 cs = false := by
  simp only [hasTicks3, Bool.or_eq_false_iff] at h
  exact h

theorem noTick_hasTicks3 {l : List Char} (h : btChar ∉ l) : hasTicks3 l = false := by
  induction l with
  | nil => rfl
  | cons c cs ih =>
    have hc : (btChar == c) = false := by
      simp only [beq_eq_false_iff_ne]
      exact fun he => h (he ▸ List.mem_cons_self c cs)
    simp only [hasTicks3, Bool.or_eq_false_iff]
    refine ⟨?_, ih fun hm => h (List.mem_cons_of_mem _ hm)⟩
    simp [ticks3, startsWith, hc]

theorem subCode_id {l : List Char} (h : hasTicks3 l = false) :
    ∀ fuel idx, subCodeF fuel l idx = (l, []) := by
  induction l with
  | nil => intro fuel idx; cases fuel <;> rfl
  | cons c cs ih =>
    intro fuel idx
    cases fuel with
    | zero => rfl
    | succ n =>
      obtain ⟨h1, h2⟩ := hasTicks3_cons h
      simp only [subCodeF]
      rw [if_neg (by simp [h1]), ih h2]

theorem subInline_id {l : List Char} (h : btChar ∉ l) :
    ∀ fuel idx, subInlineF fuel l idx = (l, []) := by
  induction l with
  | nil => intro fuel idx; cases fuel <;> rfl
  | cons c cs ih =>
    intro fuel idx
    cases fuel with
    | zero => rfl
    | succ n =>
      have hc : (c == btChar) = false := by
        simp only [beq_eq_false_iff_ne]
        exact fun he => h (he ▸ List.mem_cons_self c cs)
      simp only [subInlineF]
      rw [if_neg (by simp [hc]), ih (fun hm => h (List.mem_cons_of_mem _ hm))]

theorem subLink_id {l : List Char} (h : '[' ∉ l) :
    ∀ fuel, subLinkF fuel l = l := by
  induction l with
  | nil => intro fuel; cases fuel <;> rfl
  | cons c cs ih =>
    intro fuel
    cases fuel with
    | zero => rfl
    | succ n =>
      have hc : (c == '[') = false := by
        simp only [beq_eq_false_iff_ne]
        exact fun he => h (he ▸ List.mem_cons_self c cs)
      simp only [subLinkF]
      rw [if_neg (by simp [hc]), ih (fun hm => h (List.mem_cons_of_mem _ hm))]

theorem tryHeading_none {l : List Char} (h : '#' ∉ l) : tryHeading l = none := by
  have htake : (l.dropWhile spTab).takeWhile (fun c => c == '#') = [] := by
    cases hd : l.dropWhile spTab with
    | nil => rfl
    | cons x xs =>
      have hx : x ∈ l := memDropWhile (hd ▸ List.mem_cons_self x xs)
      have : (x == '#') = false := by
        simp only [beq_eq_false_iff_ne]
        exact fun he => h (he ▸ hx)
      simp [List.takeWhile_cons, this]
  simp only [tryHeading, htake]
  rw [if_neg]
  simp

theorem subHead_id {l : List Char} (h : '#' ∉ l) :
    ∀ fuel b idx, subHeadF fuel l b idx = (l, []) := by
  induction l with
  | nil => intro fuel b idx; cases fuel <;> rfl
  | cons c cs ih =>
    intro fuel b idx
    cases fuel with
    | zero => rfl
    | succ n =>
      have htail : '#' ∉ cs := fun hm => h (List.mem_cons_of_mem _ hm)
      cases b <;> simp [subHeadF, tryHeading_none h, ih htail]

theorem tryBullet_none {l : List Char} (h : '*' ∉ l) : tryBullet l = none := by
  unfold tryBullet
  cases hd : l.dropWhile spTab with
  | nil => rfl
  | cons x xs =>
    have hx : x ∈ l := memDropWhile (hd ▸ List.mem_cons_self x xs)
    have : (x == '*') = false := by
      simp only [beq_eq_false_iff_ne]
      exact fun he => h (he ▸ hx)
    simp [this]

theorem subBulletStar_id {l : List Char} (h : '*' ∉ l) :
    ∀ fuel b, subBulletStarF fuel l b = l := by
  induction l with
  | nil => intro fuel b; cases fuel <;> rfl
  | cons c cs ih =>
    intro fuel b
    cases fuel with
    | zero => rfl
    | succ n =>
      have htail : '*' ∉ cs := fun hm => h (List.mem_cons_of_mem _ hm)
      cases b <;> simp [subBulletStarF, tryBullet_none h, ih htail]

theorem subBulletStar_noNL {l : List Char} (h : '\n' ∉ l) :
    ∀ fuel, subBulletStarF fuel l false = l := by
  induction l with
  | nil => intro fuel; cases fuel <;> rfl
  | cons c cs ih =>
    intro fuel
    cases fuel with
    | zero => rfl
    | succ n =>
      have hc : (c == '\n') = false := by
        simp only [beq_eq_false_iff_ne]
        exact fun he => h (he ▸ List.mem_cons_self c cs)
      simp [subBulletStarF, hc, ih (fun hm => h (List.mem_cons_of_mem _ hm))]

theorem tryDot_none {l : List Char} (h1 : '・' ∉ l) (h2 : '•' ∉ l) : tryDot l = none := by
  unfold tryDot
  cases hd : l.dropWhile spTab with
  | nil => rfl
  | cons x xs =>
    have hx : x ∈ l := memDropWhile (hd ▸ List.mem_cons_self x xs)
    have e1 : (x == '・') = false := by
      simp only [beq_eq_false_iff_ne]
      exact fun he => h1 (he ▸ hx)
    have e2 : (x == '•') = false := by
      simp only [beq_eq_false_iff_ne]
      exact fun he => h2 (he ▸ hx)
    simp [e1, e2]

theorem subBulletDot_id {l : List Char} (h1 : '・' ∉ l) (h2 : '•' ∉ l) :
    ∀ fuel b, subBulletDotF fuel l b = l := by
  induction l with
  | nil => intro fuel b; cases fuel <;> rfl
  | cons c cs ih =>
    intro fuel b
    cases fuel with
    | zero => rfl
    | succ n =>
      have t1 : '・' ∉ cs := fun hm => h1 (List.mem_cons_of_mem _ hm)
      have t2 : '•' ∉ cs := fun hm => h2 (List.mem_cons_of_mem _ hm)
      cases b <;> simp [subBulletDotF, tryDot_none h1 h2, ih t1 t2]

theorem hasDouble_cons {d c : Char} {cs : List Char} (h : hasDouble d (c :: cs) = false) :
    startsWith [d, d] (c :: cs) = false ∧ hasDouble d cs = false := by
  simp only [hasDouble, Bool.or_eq_false_iff] at h
  exact h

theorem notMem_hasDouble {d : Char} {l : List Char} (h : d ∉ l) : hasDouble d l = false := by
  induction l with
  | nil => rfl
  | cons c cs ih =>
    have hc : (d == c) = false := by
      simp only [beq_eq_false_iff_ne]
      exact fun he => h (he ▸ List.mem_cons_self c cs)
    simp only [hasDouble, Bool.or_eq_false_iff]
    refine ⟨?_, ih fun hm => h (List.mem_cons_of_mem _ hm)⟩
    simp [startsWith, hc]

theorem subBold_id {d : Char} {l : List Char} (h : hasDouble d l = false) :
    ∀ fuel idx, subBoldF fuel d l idx = (l, []) := by
  induction l with
  | nil => intro fuel idx; cases fuel <;> rfl
  | cons c cs ih =>
    intro fuel idx
    cases fuel with
    | zero => rfl
    | succ n =>
      obtain ⟨h1, h2⟩ := hasDouble_cons h
      simp only [subBoldF]
      rw [if_neg (by simp [h1]), ih h2]

theorem subStrike_id {l : List Char} (h : '~' ∉ l) :
    ∀ fuel, subStrikeF fuel l = l := by
  induction l with
  | nil => intro fuel; cases fuel <;> rfl
  | cons c cs ih =>
    intro fuel
    cases fuel with
    | zero => rfl
    | succ n =>
      have h1 : startsWith ['~', '~'] (c :: cs) = false := by
        have hc : ('~' == c) = false := by
          simp only [beq_eq_false_iff_ne]
          exact fun he => h (he ▸ List.mem_cons_self c cs)
        simp [startsWith, hc]
      simp only [subStrikeF]
      rw [if_neg (by simp [h1]), ih (fun hm => h (List.mem_cons_of_mem _ hm))]

theorem italLineF_id {l : List Char} (h : '*' ∉ l) :
    ∀ fuel prev, italLineF fuel prev l = l := by
  induction l with
  | nil => intro fuel prev; cases fuel <;> rfl
  | cons c cs ih =>
    intro fuel prev
    cases fuel with
    | zero => rfl
    | succ n =>
      have hc : (c == '*') = false := by
        simp only [beq_eq_false_iff_ne]
        exact fun he => h (he ▸ List.mem_cons_self c cs)
      simp [italLineF, hc, ih (fun hm => h (List.mem_cons_of_mem _ hm))]

theorem tryItalPre_none {l : List Char} (h : '*' ∉ l) : tryItalPre l = none := by
  simp only [tryItalPre]
  cases hd : l.dropWhile isPySpace with
  | nil => rfl
  | cons x xs =>
    cases xs with
    | nil => rfl
    | cons y ys =>
      have hx : x ∈ l := memDropWhile (hd ▸ List.mem_cons_self x (y :: ys))
      have hxs : (x == '*') = false := by
        simp only [beq_eq_false_iff_ne]
        exact fun he => h (he ▸ hx)
      simp [hxs]

theorem italLine_id {l : List Char} (h : '*' ∉ l) : italLine l = l := by
  simp [italLine, tryItalPre_none h, italLineF_id h]

/-! ## Lemmas about `pySplitlines` and `joinNL` -/

theorem pySplitlines_cons {c : Char} {cs : List Char} (hr : c ≠ '\r') :
    pySplitlines (c :: cs) =
      (if isLineSep c then [] :: pySplitlines cs
       else match pySplitlines cs with
         | [] => [[c]]
         | ln :: lns => (c :: ln) :: lns) := by
  conv_lhs => rw [pySplitlines.eq_def]
  split
  · rename_i heq
    exact absurd heq (List.cons_ne_nil c cs)
  · rename_i heq
    rw [List.cons.injEq] at heq
    exact absurd heq.1 hr
  · rename_i heq
    rw [List.cons.injEq] at heq
    exact absurd heq.1 hr
  · rename_i heq
    rw [List.cons.injEq] at heq
    exact absurd heq.1 hr
  · rename_i heq
    rw [List.cons.injEq] at heq
    rw [← heq.1, ← heq.2]

theorem pySplitlines_ne_nil {l : List Char}
    (hne : l ≠ []) (htame : ∀ c ∈ l, isLineSep c = true → c = '\n') :
    pySplitlines l ≠ [] := by
  cases l with
  | nil => exact absurd rfl hne
  | cons c cs =>
    have hr : c ≠ '\r' := by
      intro he
      subst he
      exact absurd (htame '\r' (List.mem_cons_self _ _) (by decide)) (by decide)
    rw [pySplitlines_cons hr]
    by_cases hsep : isLineSep c = true
    · rw [if_pos hsep]
      exact List.cons_ne_nil _ _
    · rw [if_neg hsep]
      cases hps : pySplitlines cs with
      | nil => simp
      | cons ln lns => simp

theorem mem_pySplitlines {l : List Char}
    (htame : ∀ c ∈ l, isLineSep c = true → c = '\n') :
    ∀ ln ∈ pySplitlines l, ∀ a ∈ ln, a ∈ l := by
  induction l with
  | nil =>
    intro ln hln
    simp [pySplitlines] at hln
  | cons c cs ih =>
    have htcs : ∀ x ∈ cs, isLineSep x = true → x = '\n' :=
      fun x hx => htame x (List.mem_cons_of_mem _ hx)
    have hr : c ≠ '\r' := by
      intro he
      subst he
      exact absurd (htame '\r' (List.mem_cons_self _ _) (by decide)) (by decide)
    intro ln hln a ha
    rw [pySplitlines_cons hr] at hln
    by_cases hsep : isLineSep c = true
    · rw [if_pos hsep] at hln
      rcases List.mem_cons.mp hln with he | hm
      · subst he
        simp at ha
      · exact List.mem_cons_of_mem _ (ih htcs ln hm a ha)
    · rw [if_neg hsep] at hln
      cases hps : pySplitlines cs with
      | nil =>
        rw [hps] at hln
        simp at hln
        subst hln
        simp at ha
        subst ha
        exact List.mem_cons_self _ _
      | cons ln0 lns =>
        rw [hps] at hln
        simp only [List.mem_cons] at hln
        rcases hln with he | hm
        · subst he
          rcases List.mem_cons.mp ha with he2 | hm2
          · subst he2
            exact List.mem_cons_self _ _
          · have : a ∈ cs := ih htcs ln0 (hps ▸ List.mem_cons_self _ _) a hm2
            exact List.mem_cons_of_mem _ this
        · have : a ∈ cs := ih htcs ln (hps ▸ List.mem_cons_of_mem _ hm) a ha
          exact List.mem_cons_of_mem _ this

theorem pySplitlines_single {l : List Char}
    (hne : l ≠ []) (h : ∀ c ∈ l, isLineSep c = false) :
    pySplitlines l = [l] := by
  induction l with
  | nil => exact absurd rfl hne
  | cons c cs ih =>
    have hc := h c (List.mem_cons_self c cs)
    have hr : c ≠ '\r' := by
      intro he
      subst he
      exact absurd hc (by decide)
    rw [pySplitlines_cons hr, if_neg (by simp [hc])]
    cases cs with
    | nil => simp [pySplitlines]
    | cons d ds =>
      rw [ih (List.cons_ne_nil d ds) (fun x hx => h x (List.mem_cons_of_mem _ hx))]

theorem lastChar?_cons {c : Char} {cs : List Char} (h : cs ≠ []) :
    lastChar? (c :: cs) = lastChar? cs := by
  cases cs with
  | nil => exact absurd rfl h
  | cons d ds => rfl

theorem joinNL_head_cons (c : Char) (ln : List Char) (lns : List (List Char)) :
    joinNL ((c :: ln) :: lns) = c :: joinNL (ln :: lns) := by
  cases lns with
  | nil => rfl
  | cons l2 ls => rfl

theorem joinNL_pySplitlines {l : List Char}
    (htame : ∀ c ∈ l, isLineSep c = true → c = '\n')
    (hlast : lastChar? l ≠ some '\n') :
    joinNL (pySplitlines l) = l := by
  induction l with
  | nil => rfl
  | cons c cs ih =>
    have htcs : ∀ x ∈ cs, isLineSep x = true → x = '\n' :=
      fun x hx => htame x (List.mem_cons_of_mem _ hx)
    have hr : c ≠ '\r' := by
      intro he
      subst he
      exact absurd (htame '\r' (List.mem_cons_self _ _) (by decide)) (by decide)
    cases cs with
    | nil =>
      by_cases hsep : isLineSep c = true
      · have hcn : c = '\n' := htame c (List.mem_cons_self _ _) hsep
        subst hcn
        exact absurd rfl hlast
      · rw [pySplitlines_cons hr, if_neg hsep]
        simp [pySplitlines, joinNL]
    | cons d ds =>
      have hne : (d :: ds) ≠ [] := List.cons_ne_nil d ds
      have hlcs : lastChar? (d :: ds) ≠ some '\n' := by
        rw [lastChar?_cons hne] at hlast
        exact hlast
      by_cases hsep : isLineSep c = true
      · have hcn : c = '\n' := htame c (List.mem_cons_self _ _) hsep
        subst hcn
        rw [pySplitlines_cons hr, if_pos hsep]
        cases hps : pySplitlines (d :: ds) with
        | nil => exact absurd hps (pySplitlines_ne_nil hne htcs)
        | cons ln lns =>
          rw [joinNL, ← hps, ih htcs hlcs]
          rfl
      · rw [pySplitlines_cons hr, if_neg hsep]
        cases hps : pySplitlines (d :: ds) with
        | nil => exact absurd hps (pySplitlines_ne_nil hne htcs)
        | cons ln lns =>
          rw [joinNL_head_cons, ← hps, ih htcs hlcs]

theorem mapSelf {f : List Char → List Char} :
    ∀ L : List (List Char), (∀ ln ∈ L, f ln = ln) → L.map f = L := by
  intro L
  induction L with
  | nil => intro _; rfl
  | cons x xs ih =>
    intro h
    rw [List.map_cons, h x (List.mem_cons_self _ _),
      ih (fun y hy => h y (List.mem_cons_of_mem _ hy))]

theorem stage7_id {l : List Char}
    (hstar : '*' ∉ l)
    (htame : ∀ c ∈ l, isLineSep c = true → c = '\n')
    (hlast : lastChar? l ≠ some '\n') :
    stage7 l = l := by
  unfold stage7
  have hmap : (pySplitlines l).map italLine = pySplitlines l := by
    apply mapSelf
    intro ln hln
    apply italLine_id
    intro hm
    exact hstar (mem_pySplitlines htame ln hln '*' hm)
  rw [hmap]
  exact joinNL_pySplitlines htame hlast

/-! ## Composite identity of the pipeline on trigger-free text -/

theorem mid_id {l : List Char}
    (hlb : '[' ∉ l) (hhash : '#' ∉ l) (hstar : '*' ∉ l) (hus : '_' ∉ l)
    (hd1 : '・' ∉ l) (hd2 : '•' ∉ l) (htld : '~' ∉ l)
    (htame : ∀ c ∈ l, isLineSep c = true → c = '\n')
    (hlast : lastChar? l ≠ some '\n') :
    midStages l = (l, [], []) := by
  simp [midStages, subLink_id hlb, subHead_id hhash, subBulletStar_id hstar,
    subBulletDot_id hd1 hd2, subBold_id (notMem_hasDouble hstar),
    subBold_id (notMem_hasDouble hus), subStrike_id htld,
    stage7_id hstar htame hlast]

/-! ## C1: plain-text round trip -/

/-- C1 counterexample: `"a\n"` contains none of the recognized markup glyphs,
yet `convert_markdown_to_slack` does not return it unchanged — the
`splitlines` / `join` pair of the italic stage drops the trailing newline. -/
theorem C1_counterexample :
    (∀ c ∈ "a\n".data, isC1Glyph c = false) ∧
    convert_markdown_to_slack "a\n" = "a" ∧
    convert_markdown_to_slack "a\n" ≠ "a\n" := by
  refine ⟨by decide, by decide, by decide⟩

/-- C1 (amended): for every input string free of the recognized markup glyphs
(asterisk, underscore, tilde, backtick, square brackets, parentheses, the
heading marker `#`, and the bullet glyphs `・`/`•`) whose only line-separator
characters are interior `\n`s (no `\r`, vertical tab, form feed, or other
Unicode line separators, and no trailing newline), `convert_markdown_to_slack`
returns the string unchanged. -/
theorem C1_plain_roundtrip (s : String)
    (h1 : ∀ c ∈ s.data, isC1Glyph c = false)
    (h2 : ∀ c ∈ s.data, isLineSep c = true → c = '\n')
    (h3 : lastChar? s.data ≠ some '\n') :
    convert_markdown_to_slack s = s := by
  have hbt : btChar ∉ s.data := fun hm => absurd (h1 _ hm) (by decide)
  have hlb : '[' ∉ s.data := fun hm => absurd (h1 _ hm) (by decide)
  have hhash : '#' ∉ s.data := fun hm => absurd (h1 _ hm) (by decide)
  have hstar : '*' ∉ s.data := fun hm => absurd (h1 _ hm) (by decide)
  have hus : '_' ∉ s.data := fun hm => absurd (h1 _ hm) (by decide)
  have hd1 : '・' ∉ s.data := fun hm => absurd (h1 _ hm) (by decide)
  have hd2 : '•' ∉ s.data := fun hm => absurd (h1 _ hm) (by decide)
  have htld : '~' ∉ s.data := fun hm => absurd (h1 _ hm) (by decide)
  have hconv : convertList s.data = s.data := by
    simp [convertList, subCode_id (noTick_hasTicks3 hbt), subInline_id hbt,
      mid_id hlb hhash hstar hus hd1 hd2 htld h2 h3, restoreMap]
  show String.mk (convertList s.data) = s
  rw [hconv]

/-- Witness for C1 (amended) on a concrete markup-free string. -/
theorem C1_witness :
    convert_markdown_to_slack "plain text, no markup at all" = "plain text, no markup at all" :=
  C1_plain_roundtrip _ (by decide) (by decide) (by decide)

/-! ## C2: code shielding -/

theorem subCode_nilText : ∀ fuel idx, subCodeF fuel [] idx = ([], []) := by
  intro fuel idx
  cases fuel <;> rfl

theorem subInline_nilText : ∀ fuel idx, subInlineF fuel [] idx = ([], []) := by
  intro fuel idx
  cases fuel <;> rfl

theorem findTick_append {c r : List Char} (h : btChar ∉ c) :
    findTick (c ++ btChar :: r) = some (c, r) := by
  induction c with
  | nil => simp [findTick]
  | cons x xs ih =>
    have hx : (x == btChar) = false := by
      simp only [beq_eq_false_iff_ne]
      exact fun he => h (he ▸ List.mem_cons_self x xs)
    simp [findTick, hx, ih (fun hm => h (List.mem_cons_of_mem _ hm))]

theorem startsWith_ticks3_cons_false {x : Char} {rest : List Char}
    (hx : (btChar == x) = false) : startsWith ticks3 (x :: rest) = false := by
  simp [ticks3, startsWith, hx]

theorem startsWith_ticks3_bt3 (rest : List Char) :
    startsWith ticks3 (btChar :: btChar :: btChar :: rest) = true := by
  simp [ticks3, startsWith]

theorem findClose3_append {c : List Char} (h : btChar ∉ c) :
    findClose3 (c ++ ticks3) = some (c, []) := by
  induction c with
  | nil => decide
  | cons x xs ih =>
    have hx : (btChar == x) = false := by
      simp only [beq_eq_false_iff_ne]
      exact fun he => h (he ▸ List.mem_cons_self x xs)
    simp [findClose3, startsWith_ticks3_cons_false hx,
      ih (fun hm => h (List.mem_cons_of_mem _ hm))]

theorem hasTicks3_append_one {c : List Char} (h : btChar ∉ c) :
    hasTicks3 (c ++ [btChar]) = false := by
  induction c with
  | nil => decide
  | cons x xs ih =>
    have hx : (btChar == x) = false := by
      simp only [beq_eq_false_iff_ne]
      exact fun he => h (he ▸ List.mem_cons_self x xs)
    simp [hasTicks3, startsWith, ticks3, hx,
      ih (fun hm => h (List.mem_cons_of_mem _ hm))]

theorem hasTicks3_inline {c : List Char} (hne : c ≠ []) (h : btChar ∉ c) :
    hasTicks3 (btChar :: (c ++ [btChar])) = false := by
  cases c with
  | nil => exact absurd rfl hne
  | cons x xs =>
    have hx : (btChar == x) = false := by
      simp only [beq_eq_false_iff_ne]
      exact fun he => h (he ▸ List.mem_cons_self x xs)
    simp [hasTicks3, startsWith, ticks3, hx,
      hasTicks3_append_one (fun hm => h (List.mem_cons_of_mem _ hm))]

theorem mid_ic0 : midStages (phName icBase 0) = (phName icBase 0, [], []) := by decide

theorem mid_cb0 : midStages (phName cbBase 0) = (phName cbBase 0, [], []) := by decide

/-- C2 counterexample: on the nested input `` ` ```a``` ` `` the fenced code
block is shielded first, its placeholder is then swallowed into the shielded
inline span, and restoration (code blocks before inline code) never brings the
block back: the fenced content `a` does not appear in the output at all, and a
raw placeholder leaks into it. -/
theorem C2_counterexample :
    convert_markdown_to_slack "` ```a``` `" = "` %%CODEBLOCK_0%% `" ∧
    'a' ∈ "` ```a``` `".data ∧
    'a' ∉ (convert_markdown_to_slack "` ```a``` `").data := by
  refine ⟨by decide, by decide, by decide⟩

/-- C2 (amended): shielded code content is preserved byte-for-byte for
non-nested, collision-free code inputs: any input that is exactly one inline
code span with nonempty backtick-free content, and any input that is exactly
one fenced code block with backtick-free content (which may contain headings,
bold markers, asterisks and bullet markers), translates to itself. The
original universal claim fails on nested code constructs
(`C2_counterexample`). -/
theorem C2_code_shielding_amended :
    (∀ c : List Char, c ≠ [] → btChar ∉ c →
       convert_markdown_to_slack ⟨btChar :: (c ++ [btChar])⟩ = ⟨btChar :: (c ++ [btChar])⟩) ∧
    (∀ c : List Char, btChar ∉ c →
       convert_markdown_to_slack ⟨ticks3 ++ (c ++ ticks3)⟩ = ⟨ticks3 ++ (c ++ ticks3)⟩) := by
  constructor
  · intro c hne hbt
    show String.mk (convertList (btChar :: (c ++ [btChar]))) = _
    have h0 : ∀ fuel idx, subCodeF fuel (btChar :: (c ++ [btChar])) idx
        = (btChar :: (c ++ [btChar]), []) := subCode_id (hasTicks3_inline hne hbt)
    have h1 : ∀ fuel, subInlineF (fuel + 1) (btChar :: (c ++ [btChar])) 0
        = (phName icBase 0, [(phName icBase 0, btChar :: (c ++ [btChar]))]) := by
      intro fuel
      simp [subInlineF, findTick_append hbt, hne, subInline_nilText]
    have hra : ∀ repl : List Char,
        replaceAll (phName icBase 0) repl (phName icBase 0) = repl :=
      fun repl => replaceAll_self _ repl (phName_ne_nil icBase 0)
    have hcv : convertList (btChar :: (c ++ [btChar])) = btChar :: (c ++ [btChar]) := by
      simp [convertList, h0, h1, mid_ic0, restoreMap, hra]
    rw [hcv]
  · intro c hbt
    show String.mk (convertList (ticks3 ++ (c ++ ticks3))) = _
    have hl : ticks3 ++ (c ++ ticks3) = btChar :: btChar :: btChar :: (c ++ ticks3) := by
      simp [ticks3]
    have h0 : ∀ fuel, subCodeF (fuel + 1) (ticks3 ++ (c ++ ticks3)) 0
        = (phName cbBase 0, [(phName cbBase 0, ticks3 ++ (c ++ ticks3))]) := by
      intro fuel
      conv_lhs => rw [hl]
      simp [subCodeF, startsWith_ticks3_bt3, findClose3_append hbt, subCode_nilText, hl]
    have h1 : ∀ fuel idx, subInlineF fuel (phName cbBase 0) idx
        = (phName cbBase 0, []) := subInline_id (by decide)
    have hra : ∀ repl : List Char,
        replaceAll (phName cbBase 0) repl (phName cbBase 0) = repl :=
      fun repl => replaceAll_self _ repl (phName_ne_nil cbBase 0)
    have hcv : convertList (ticks3 ++ (c ++ ticks3)) = ticks3 ++ (c ++ ticks3) := by
      simp [convertList, h0, h1, mid_cb0, restoreMap, hra]
    rw [hcv]

/-- Witness for C2 (amended): the spec's inline example and a fenced block
containing a heading, bold text and a bullet are preserved unchanged. -/
theorem C2_witness :
    convert_markdown_to_slack ⟨btChar :: ("*not-emphasis*".data ++ [btChar])⟩
      = ⟨btChar :: ("*not-emphasis*".data ++ [btChar])⟩ ∧
    convert_markdown_to_slack ⟨ticks3 ++ ("\n# head\n**bold**\n* bullet\n".data ++ ticks3)⟩
      = ⟨ticks3 ++ ("\n# head\n**bold**\n* bullet\n".data ++ ticks3)⟩ :=
  ⟨C2_code_shielding_amended.1 "*not-emphasis*".data (by decide) (by decide),
   C2_code_shielding_amended.2 "\n# head\n**bold**\n* bullet\n".data (by decide)⟩

/-! ## C8: placeholder collision -/

/-- C8: the placeholder token `%%BOLD_0%%` generated for the input
`"%%BOLD_0%% **x**"` collides with a literal substring of that source text;
during restoration `str.replace` rewrites both occurrences, so the literal
source text `%%BOLD_0%%` is corrupted into `*x*` and the claimed
no-collision property fails on the code. -/
theorem C8_placeholder_collision :
    hasSub (phName boldBase 0) "%%BOLD_0%% **x**".data = true ∧
    convert_markdown_to_slack "%%BOLD_0%% **x**" = "*x* *x*" ∧
    hasSub (phName boldBase 0) (convert_markdown_to_slack "%%BOLD_0%% **x**").data = false := by
  refine ⟨by decide, by decide, by decide⟩

/-! ## C7: emphasis versus bullet disambiguation -/

theorem italLineF_nilText : ∀ fuel prev, italLineF fuel prev [] = [] := by
  intro fuel prev
  cases fuel <;> rfl

theorem findIC_span {a : Char} {t : List Char} (hs : '*' ∉ a :: t) (hn : '\n' ∉ a :: t) :
    findIC (a :: (t ++ ['*'])) = some (a :: t, []) := by
  induction t generalizing a with
  | nil =>
    have hxn : (a == '\n') = false := by
      simp only [beq_eq_false_iff_ne]
      exact fun he => hn (he ▸ List.mem_cons_self a [])
    have hxs : (a == '*') = false := by
      simp only [beq_eq_false_iff_ne]
      exact fun he => hs (he ▸ List.mem_cons_self a [])
    simp [findIC, hxn, hxs]
  | cons y ys ih =>
    have hxn : (a == '\n') = false := by
      simp only [beq_eq_false_iff_ne]
      exact fun he => hn (he ▸ List.mem_cons_self a (y :: ys))
    have hy : (y == '*') = false := by
      simp only [beq_eq_false_iff_ne]
      exact fun he => hs (he ▸ List.mem_cons_of_mem a (List.mem_cons_self y ys))
    have ihs : '*' ∉ y :: ys := fun hm => hs (List.mem_cons_of_mem _ hm)
    have ihn : '\n' ∉ y :: ys := fun hm => hn (List.mem_cons_of_mem _ hm)
    simp [findIC, hxn, hy, ih ihs ihn]

theorem hasDouble_star_append {t : List Char} (h : '*' ∉ t) :
    hasDouble '*' (t ++ ['*']) = false := by
  induction t with
  | nil => decide
  | cons x xs ih =>
    have hx : ('*' == x) = false := by
      simp only [beq_eq_false_iff_ne]
      exact fun he => h (he.symm ▸ List.mem_cons_self x xs)
    simp [hasDouble, startsWith, hx, ih (fun hm => h (List.mem_cons_of_mem _ hm))]

/-- The translator rewrites a lone single-asterisk emphasis span to the
underscore form: `*⟨a::t⟩*` becomes `_⟨a::t⟩_` when the span content is free
of markup glyphs and line separators and does not start with whitespace. -/
theorem convert_span1 (a : Char) (t : List Char)
    (hGlyph : ∀ x ∈ a :: t, isC1Glyph x = false)
    (hSep : ∀ x ∈ a :: t, isLineSep x = false)
    (hHead : isPySpace a = false) :
    convertList ('*' :: a :: (t ++ ['*'])) = '_' :: a :: (t ++ ['_']) := by
  have hmem : ∀ x : Char, isC1Glyph x = true → x ∉ a :: t :=
    fun x hx hm => absurd (hGlyph x hm) (by rw [hx]; decide)
  have hstar_t : '*' ∉ a :: t := hmem '*' (by decide)
  have hus_t : '_' ∉ a :: t := hmem '_' (by decide)
  have hbt_t : btChar ∉ a :: t := hmem btChar (by decide)
  have hlb_t : '[' ∉ a :: t := hmem '[' (by decide)
  have hhash_t : '#' ∉ a :: t := hmem '#' (by decide)
  have htld_t : '~' ∉ a :: t := hmem '~' (by decide)
  have hd1_t : '・' ∉ a :: t := hmem '・' (by decide)
  have hd2_t : '•' ∉ a :: t := hmem '•' (by decide)
  have hnl_t : '\n' ∉ a :: t := fun hm => absurd (hSep '\n' hm) (by decide)
  have ha : a ≠ '*' := fun he => hstar_t (by rw [he]; exact List.mem_cons_self _ _)
  have hspan : ∀ x : Char, x ≠ '*' → x ∉ a :: t → x ∉ '*' :: a :: (t ++ ['*']) := by
    intro x h1 h2 hm
    simp only [List.mem_cons, List.mem_append, List.mem_singleton] at hm
    rcases hm with h | h | h | h
    · exact h1 h
    · exact h2 (by rw [h]; exact List.mem_cons_self _ _)
    · exact h2 (List.mem_cons_of_mem _ h)
    · rcases h with h | h
      · exact h1 h
      · simp at h
  have hbt_sp := hspan btChar (by decide) hbt_t
  have hlb_sp := hspan '[' (by decide) hlb_t
  have hhash_sp := hspan '#' (by decide) hhash_t
  have htld_sp := hspan '~' (by decide) htld_t
  have hd1_sp := hspan '・' (by decide) hd1_t
  have hd2_sp := hspan '•' (by decide) hd2_t
  have hus_sp := hspan '_' (by decide) hus_t
  have hnl_sp := hspan '\n' (by decide) hnl_t
  have hnl_rest : '\n' ∉ a :: (t ++ ['*']) := fun hm => hnl_sp (List.mem_cons_of_mem _ hm)
  have hsep_sp : ∀ x ∈ '*' :: a :: (t ++ ['*']), isLineSep x = false := by
    intro x hm
    simp only [List.mem_cons, List.mem_append, List.mem_singleton] at hm
    rcases hm with h | h | h | h
    · rw [h]; decide
    · rw [h]; exact hSep a (List.mem_cons_self _ _)
    · exact hSep x (List.mem_cons_of_mem _ h)
    · rcases h with h | h
      · rw [h]; decide
      · simp at h
  have htb : tryBullet ('*' :: a :: (t ++ ['*'])) = none := by
    simp [tryBullet, (by decide : spTab '*' = false), hHead]
  have hbull : ∀ fuel, subBulletStarF (fuel + 1) ('*' :: a :: (t ++ ['*'])) true
      = '*' :: a :: (t ++ ['*']) := by
    intro fuel
    simp [subBulletStarF, htb, (by decide : ('*' == '\n') = false),
      subBulletStar_noNL hnl_rest]
  have hfic : findIC (a :: (t ++ ['*'])) = some (a :: t, []) := findIC_span hstar_t hnl_t
  have hitf : ∀ fuel, italLineF (fuel + 1) none ('*' :: a :: (t ++ ['*']))
      = '_' :: a :: (t ++ ['_']) := by
    intro fuel
    have hh : ((a :: (t ++ ['*'])).head? == some '*') = false := by
      simp [beq_eq_false_iff_ne, ha]
    simp [italLineF, hfic, italLineF_nilText, hh,
      (by decide : ((none : Option Char) == some '*') = false)]
    exact ha
  have htp : tryItalPre ('*' :: a :: (t ++ ['*'])) = none := by
    simp [tryItalPre, (by decide : isPySpace '*' = false), hHead]
  have hdb : hasDouble '*' ('*' :: a :: (t ++ ['*'])) = false := by
    have hxa : ('*' == a) = false := by
      simp only [beq_eq_false_iff_ne]
      exact fun he => ha he.symm
    have htail : '*' ∉ t := fun hm => hstar_t (List.mem_cons_of_mem _ hm)
    simp [hasDouble, startsWith, hxa, hasDouble_star_append htail]
  have hst7 : stage7 ('*' :: a :: (t ++ ['*'])) = '_' :: a :: (t ++ ['_']) := by
    rw [stage7, pySplitlines_single (List.cons_ne_nil _ _) hsep_sp]
    simp [italLine, htp, hitf, joinNL]
  have hmid : midStages ('*' :: a :: (t ++ ['*'])) = ('_' :: a :: (t ++ ['_']), [], []) := by
    simp [midStages, subLink_id hlb_sp, subHead_id hhash_sp, hbull,
      subBulletDot_id hd1_sp hd2_sp, subBold_id hdb,
      subBold_id (notMem_hasDouble hus_sp), subStrike_id htld_sp, hst7]
  simp [convertList, subCode_id (noTick_hasTicks3 hbt_sp), subInline_id hbt_sp, hmid,
    restoreMap]

/-- On a line with the normalized bullet prefix `* `, the bullet marker is
preserved and only the remainder undergoes the emphasis rewrite:
`* *⟨a::t⟩*` becomes `* _⟨a::t⟩_`. -/
theorem convert_span2 (a : Char) (t : List Char)
    (hGlyph : ∀ x ∈ a :: t, isC1Glyph x = false)
    (hSep : ∀ x ∈ a :: t, isLineSep x = false)
    (_hHead : isPySpace a = false) :
    convertList ('*' :: ' ' :: '*' :: a :: (t ++ ['*']))
      = '*' :: ' ' :: '_' :: a :: (t ++ ['_']) := by
  have hmem : ∀ x : Char, isC1Glyph x = true → x ∉ a :: t :=
    fun x hx hm => absurd (hGlyph x hm) (by rw [hx]; decide)
  have hstar_t : '*' ∉ a :: t := hmem '*' (by decide)
  have hus_t : '_' ∉ a :: t := hmem '_' (by decide)
  have hbt_t : btChar ∉ a :: t := hmem btChar (by decide)
  have hlb_t : '[' ∉ a :: t := hmem '[' (by decide)
  have hhash_t : '#' ∉ a :: t := hmem '#' (by decide)
  have htld_t : '~' ∉ a :: t := hmem '~' (by decide)
  have hd1_t : '・' ∉ a :: t := hmem '・' (by decide)
  have hd2_t : '•' ∉ a :: t := hmem '•' (by decide)
  have hnl_t : '\n' ∉ a :: t := fun hm => absurd (hSep '\n' hm) (by decide)
  have ha : a ≠ '*' := fun he => hstar_t (by rw [he]; exact List.mem_cons_self _ _)
  have hspan2 : ∀ x : Char, x ≠ '*' → x ≠ ' ' → x ∉ a :: t →
      x ∉ '*' :: ' ' :: '*' :: a :: (t ++ ['*']) := by
    intro x h1 h2 h3 hm
    simp only [List.mem_cons, List.mem_append, List.mem_singleton] at hm
    rcases hm with h | h | h | h | h
    · exact h1 h
    · exact h2 h
    · exact h1 h
    · exact h3 (by rw [h]; exact List.mem_cons_self _ _)
    · rcases h with h | h
      · exact h3 (List.mem_cons_of_mem _ h)
      · rcases h with h | h
        · exact h1 h
        · simp at h
  have hbt_sp := hspan2 btChar (by decide) (by decide) hbt_t
  have hlb_sp := hspan2 '[' (by decide) (by decide) hlb_t
  have hhash_sp := hspan2 '#' (by decide) (by decide) hhash_t
  have htld_sp := hspan2 '~' (by decide) (by decide) htld_t
  have hd1_sp := hspan2 '・' (by decide) (by decide) hd1_t
  have hd2_sp := hspan2 '•' (by decide) (by decide) hd2_t
  have hus_sp := hspan2 '_' (by decide) (by decide) hus_t
  have hnl_sp := hspan2 '\n' (by decide) (by decide) hnl_t
  have hnl_rest1 : '\n' ∉ '*' :: a :: (t ++ ['*']) := by
    intro hm
    simp only [List.mem_cons, List.mem_append, List.mem_singleton] at hm
    rcases hm with h | h | h | h
    · exact absurd h (by decide)
    · exact hnl_t (by rw [h]; exact List.mem_cons_self _ _)
    · exact hnl_t (List.mem_cons_of_mem _ h)
    · rcases h with h | h
      · exact absurd h (by decide)
      · simp at h
  have hnl_rest : '\n' ∉ a :: (t ++ ['*']) := fun hm => hnl_rest1 (List.mem_cons_of_mem _ hm)
  have hsep_sp : ∀ x ∈ '*' :: ' ' :: '*' :: a :: (t ++ ['*']), isLineSep x = false := by
    intro x hm
    simp only [List.mem_cons, List.mem_append, List.mem_singleton] at hm
    rcases hm with h | h | h | h | h
    · rw [h]; decide
    · rw [h]; decide
    · rw [h]; decide
    · rw [h]; exact hSep a (List.mem_cons_self _ _)
    · rcases h with h | h
      · exact hSep x (List.mem_cons_of_mem _ h)
      · rcases h with h | h
        · rw [h]; decide
        · simp at h
  have htb2 : tryBullet ('*' :: ' ' :: '*' :: a :: (t ++ ['*']))
      = some (false, '*' :: a :: (t ++ ['*'])) := by
    simp [tryBullet, (by decide : spTab '*' = false), (by decide : isPySpace ' ' = true),
      (by decide : isPySpace '*' = false), lastChar?,
      (by decide : ((some ' ' : Option Char) == some '\n') = false)]
  have hbul2 : ∀ fuel, subBulletStarF (fuel + 1) ('*' :: ' ' :: '*' :: a :: (t ++ ['*'])) true
      = '*' :: ' ' :: '*' :: a :: (t ++ ['*']) := by
    intro fuel
    simp [subBulletStarF, htb2, subBulletStar_noNL hnl_rest1]
  have hfic : findIC (a :: (t ++ ['*'])) = some (a :: t, []) := findIC_span hstar_t hnl_t
  have hitf : ∀ fuel, italLineF (fuel + 1) none ('*' :: a :: (t ++ ['*']))
      = '_' :: a :: (t ++ ['_']) := by
    intro fuel
    have hh : ((a :: (t ++ ['*'])).head? == some '*') = false := by
      simp [beq_eq_false_iff_ne, ha]
    simp [italLineF, hfic, italLineF_nilText, hh,
      (by decide : ((none : Option Char) == some '*') = false)]
    exact ha
  have htp2 : tryItalPre ('*' :: ' ' :: '*' :: a :: (t ++ ['*']))
      = some (['*', ' '], '*' :: a :: (t ++ ['*'])) := by
    simp [tryItalPre, (by decide : isPySpace '*' = false), (by decide : isPySpace ' ' = true)]
  have hdb2 : hasDouble '*' ('*' :: ' ' :: '*' :: a :: (t ++ ['*'])) = false := by
    have hxa : ('*' == a) = false := by
      simp only [beq_eq_false_iff_ne]
      exact fun he => ha he.symm
    have htail : '*' ∉ t := fun hm => hstar_t (List.mem_cons_of_mem _ hm)
    simp [hasDouble, startsWith, hxa, (by decide : ('*' == ' ') = false),
      hasDouble_star_append htail]
  have hst7 : stage7 ('*' :: ' ' :: '*' :: a :: (t ++ ['*']))
      = '*' :: ' ' :: '_' :: a :: (t ++ ['_']) := by
    rw [stage7, pySplitlines_single (List.cons_ne_nil _ _) hsep_sp]
    simp [italLine, htp2, hitf, joinNL]
  have hmid : midStages ('*' :: ' ' :: '*' :: a :: (t ++ ['*']))
      = ('*' :: ' ' :: '_' :: a :: (t ++ ['_']), [], []) := by
    simp [midStages, subLink_id hlb_sp, subHead_id hhash_sp, hbul2,
      subBulletDot_id hd1_sp hd2_sp, subBold_id hdb2,
      subBold_id (notMem_hasDouble hus_sp), subStrike_id htld_sp, hst7]
  simp [convertList, subCode_id (noTick_hasTicks3 hbt_sp), subInline_id hbt_sp, hmid,
    restoreMap]

/-- C7: the translator rewrites a single-asterisk emphasis span `*text*` to
`_text_`, except that on a line starting with the normalized bullet prefix
(`* ` at line start) the prefix is preserved and only the remainder of the
line undergoes the emphasis rewrite. The general statements hold for any
nonempty span content `a :: t` free of markup glyphs and line separators
whose first character is not whitespace; in particular
`translate "*em*" = "_em_"` and
`translate "* item with *em* text" = "* item with _em_ text"`. -/
theorem C7_emphasis_rewrite :
    (∀ (a : Char) (t : List Char),
       (∀ x ∈ a :: t, isC1Glyph x = false) →
       (∀ x ∈ a :: t, isLineSep x = false) →
       isPySpace a = false →
       convert_markdown_to_slack ⟨'*' :: a :: (t ++ ['*'])⟩ = ⟨'_' :: a :: (t ++ ['_'])⟩ ∧
       convert_markdown_to_slack ⟨'*' :: ' ' :: '*' :: a :: (t ++ ['*'])⟩
         = ⟨'*' :: ' ' :: '_' :: a :: (t ++ ['_'])⟩) ∧
    convert_markdown_to_slack "*em*" = "_em_" ∧
    convert_markdown_to_slack "* item with *em* text" = "* item with _em_ text" := by
  refine ⟨?_, by decide, by decide⟩
  intro a t hGlyph hSep hHead
  constructor
  · show String.mk (convertList ('*' :: a :: (t ++ ['*']))) = _
    rw [convert_span1 a t hGlyph hSep hHead]
  · show String.mk (convertList ('*' :: ' ' :: '*' :: a :: (t ++ ['*']))) = _
    rw [convert_span2 a t hGlyph hSep hHead]

/-- Witness for C7 at the concrete span content `"xy"`. -/
theorem C7_witness :
    convert_markdown_to_slack ⟨'*' :: 'x' :: (['y'] ++ ['*'])⟩
      = ⟨'_' :: 'x' :: (['y'] ++ ['_'])⟩ :=
  (C7_emphasis_rewrite.1 'x' ['y'] (by decide) (by decide) (by decide)).1
